import Mathlib

/-!
Verification development for the SPHINX multimodal demo
(`accessory/demos/multi_turn_mm_box.py`) and the KTO training driver
(`accessory/engine_kto.py`).

Strings are modelled as `List Char`, Python floats that only carry exact
decimal literals as `ℚ`, and the multiprocessing queues as explicit lists
of received values.  All recursion is structural (or fuel-driven with the
input length as fuel), so every definition evaluates by `decide` / `rfl`.
-/

/-! ### Python string primitives -/

/-- Whitespace characters recognised by Python's `str.rstrip()` (ASCII). -/
def pyIsSpace (c : Char) : Bool :=
  c = ' ' || c = '\t' || c = '\n' || c = '\r' || c = Char.ofNat 11 || c = Char.ofNat 12

/-- Python `s.rstrip()`: drop trailing whitespace. -/
def pyRstrip (s : List Char) : List Char :=
  (s.reverse.dropWhile pyIsSpace).reverse

/-- Python `hay.find(pat)`: index of the first occurrence of `pat` in `hay`,
`none` when absent (Python returns `-1`). -/
def findSub (hay pat : List Char) : Option Nat :=
  match hay with
  | [] => if pat.isEmpty then some 0 else none
  | _ :: t => if pat.isPrefixOf hay then some 0 else (findSub t pat).map (· + 1)

/-- Whether `pat` occurs as a contiguous substring of `s`. -/
def containsSub (s pat : List Char) : Bool :=
  (findSub s pat).isSome

/-- Python `s[:-k]` (slice to a negative bound): empty when `k = 0`,
otherwise all but the last `k` characters. -/
def pySliceToNeg (s : List Char) (k : Nat) : List Char :=
  if k = 0 then [] else s.take (s.length - k)

/-- Python `s.replace(old, new, 1)`: rewrite the first occurrence of `old`. -/
def replaceFirst (s old nw : List Char) : List Char :=
  match findSub s old with
  | none => s
  | some q => s.take q ++ nw ++ s.drop (q + old.length)

/-- Fuel-driven scanner behind Python `s.replace(old, new)` (all occurrences,
`old` nonempty): at each position, either rewrite a match of `old` and jump
over it, or keep one character. -/
def replaceGo (old nw : List Char) : Nat → List Char → List Char
  | 0, s => s
  | _ + 1, [] => []
  | fuel + 1, c :: t =>
    if old ≠ [] ∧ old.isPrefixOf (c :: t) then
      nw ++ replaceGo old nw fuel (t.drop (old.length - 1))
    else
      c :: replaceGo old nw fuel t

/-- Python `s.replace(old, new)` for nonempty `old`. -/
def pyReplaceAll (old nw s : List Char) : List Char :=
  replaceGo old nw s.length s

/-! ### Worker streaming loop (`model_worker`, lines 112–141)

Each record streamed by `model.stream_generate` carries the cumulative
generated text and a completion flag. -/

structure StreamRec where
  text : List Char
  endOfContent : Bool
deriving DecidableEq

/-- Separator detection (lines 121–126): if the turn separator occurs in the
cumulative text, truncate at its first occurrence, right-strip, append a
newline, and force `end_of_content = True`. -/
def conv_sep_detect (sep : List Char) (r : StreamRec) : StreamRec :=
  match findSub r.text sep with
  | some p => { text := pyRstrip (r.text.take p) ++ ['\n'], endOfContent := true }
  | none => r

/-- One iteration of the worker streaming loop (lines 121–141): returns the
chunk put on the response queue (if any) and whether the loop breaks. -/
def model_worker_step (sep : List Char) (r : StreamRec) : Option StreamRec × Bool :=
  let r2 := conv_sep_detect sep r
  if r2.endOfContent then
    (some r2, true)
  else
    if r2.text.length < sep.length then
      (none, false)
    else
      (some { text := pySliceToNeg r2.text sep.length, endOfContent := false }, false)

/-- The chunks the worker emits for a whole streamed sequence of records:
process records in order, stopping after the first emitted
`end_of_content = True` chunk. -/
def model_worker_emit (sep : List Char) : List StreamRec → List StreamRec
  | [] => []
  | r :: rest =>
    match model_worker_step sep r with
    | (none, _) => model_worker_emit sep rest
    | (some c, false) => c :: model_worker_emit sep rest
    | (some c, true) => [c]

/-! ### Conversation state (`undo`, lines 267–270) -/

/-- A chat history: pairs of optional user / assistant utterances. -/
abbrev Chat := List (Option (List Char) × Option (List Char))

/-- `undo` (lines 267–270): drop the last turn when the history is nonempty. -/
def undo (chatbot : Chat) : Chat :=
  if 0 < chatbot.length then chatbot.dropLast else chatbot

/-! ### HTML escaping in the orchestrator (lines 247–257) -/

def ampLt : List Char := ['&', 'l', 't', ';']

def ampGt : List Char := ['&', 'g', 't', ';']

/-- Line 257: `text.replace("<", "&lt;").replace(">", "&gt;")`. -/
def displayEscape (s : List Char) : List Char :=
  pyReplaceAll ['>'] ampGt (pyReplaceAll ['<'] ampLt s)

/-- Lines 251/253: `text.replace("&lt;", "<").replace("&gt;", ">")`. -/
def modelUnescape (s : List Char) : List Char :=
  pyReplaceAll ampGt ['>'] (pyReplaceAll ampLt ['<'] s)

/-- Lines 248–253: the deep copy of the chat history transmitted to the
workers, with the display escaping reversed on every non-null utterance. -/
def prepareHistoryForModel (cb : Chat) : Chat :=
  cb.map (fun p => (p.1.map modelUnescape, p.2.map modelUnescape))

/-! ### The Ready/ItemQueue protocol (`stream_model_output`, lines 242–265) -/

/-- Generation parameters forwarded verbatim to the workers. -/
structure GenParams where
  maxGenLen : Nat
  temperature : ℚ
  topP : ℚ
  imgTransform : List Char
deriving DecidableEq

/-- The request tuple put on every worker queue (line 254). -/
structure GenRequest where
  imgPath : Option (List Char)
  history : Chat
  params : GenParams
deriving DecidableEq

/-- A value received on the shared inbound queue: either the `Ready` sentinel
or a worker stream chunk. -/
inductive QueueMsg where
  | readySignal : QueueMsg
  | streamChunk (c : StreamRec) : QueueMsg
deriving DecidableEq

/-- How an orchestrator turn ends. -/
inductive OrchPhase where
  | blockedInReadyWait : OrchPhase
  | blockedMidStream : OrchPhase
  | crashedOnReady : OrchPhase
  | completedTurn : OrchPhase
deriving DecidableEq

/-- Phase A (lines 243–246): blocking receives on the inbound queue,
discarding everything until the first `Ready`; `none` when the queue runs
out, i.e. the orchestrator would block forever. -/
def ready_wait : List QueueMsg → Option (List QueueMsg)
  | [] => none
  | QueueMsg.readySignal :: rest => some rest
  | QueueMsg.streamChunk _ :: rest => ready_wait rest

/-- Phase B (lines 255–265): relay every received chunk, stopping at the
first `end_of_content = True` chunk.  An exhausted queue means the loop
blocks; receiving a `Ready` here crashes (the code reads `['text']` on it). -/
def relay_stream : List QueueMsg → List StreamRec × OrchPhase
  | [] => ([], OrchPhase.blockedMidStream)
  | QueueMsg.readySignal :: _ => ([], OrchPhase.crashedOnReady)
  | QueueMsg.streamChunk c :: rest =>
    if c.endOfContent then
      ([c], OrchPhase.completedTurn)
    else
      let (l, e) := relay_stream rest
      (c :: l, e)

/-- Line 257: `chatbot[-1][1] = escaped text` (the UI state shown at each
relayed chunk). -/
def setLastBot (cb : Chat) (t : List Char) : Chat :=
  match cb.reverse with
  | [] => []
  | (u, _) :: rest => (((u, some t)) :: rest).reverse

/-- The outcome of one `stream_model_output` turn. -/
structure OrchOutcome where
  relayed : List StreamRec
  queues : List (List GenRequest)
  displays : List Chat
  phase : OrchPhase
deriving DecidableEq

/-- `stream_model_output` (lines 242–265) over an explicit inbound-queue
trace: ready-wait, then fan the request out to every worker queue, then
relay chunks until the first `end_of_content = True`. -/
def stream_model_output (inbound : List QueueMsg) (queues : List (List GenRequest))
    (imgPath : Option (List Char)) (chatbot : Chat) (params : GenParams) : OrchOutcome :=
  match ready_wait inbound with
  | none => ⟨[], queues, [], OrchPhase.blockedInReadyWait⟩
  | some rest =>
    let req : GenRequest := ⟨imgPath, prepareHistoryForModel chatbot, params⟩
    let queues2 := queues.map (fun q => q ++ [req])
    let (chunks, ph) := relay_stream rest
    ⟨chunks, queues2, chunks.map (fun c => setLastBot chatbot (displayEscape c.text)), ph⟩

/-- Index of the first `end_of_content = True` record, if any. -/
def firstEocIdx : List StreamRec → Option Nat
  | [] => none
  | c :: rest => if c.endOfContent then some 0 else (firstEocIdx rest).map (· + 1)

/-- Specification-side description of the relayed chunks: everything up to
and including the first `end_of_content = True` chunk. -/
def relayUpToFirstEoc (cs : List StreamRec) : List StreamRec :=
  match firstEocIdx cs with
  | some i => cs.take (i + 1)
  | none => cs

/-! ### Training driver (`train_one_epoch`, `engine_kto.py` lines 30–110)

The forward pass, optimizer, scaler and logger are external collaborators;
per step only the control flow matters: which effects run, in which order,
and whether the step terminates the process (`sys.exit(1)`) or raises a
`ZeroDivisionError`.  `lossFinite` abstracts `math.isfinite(loss_value)`
for the summed loss (objective plus weighted additional losses). -/

inductive TrainEff where
  | adjustLR : TrainEff
  | forwardPass : TrainEff
  | scalerCall (updateGrad : Bool) : TrainEff
  | zeroGrad : TrainEff
  | logMetrics : TrainEff
  | saveCkpt : TrainEff
deriving DecidableEq

inductive StepHalt where
  | exited (code : Nat) : StepHalt
  | zeroDivErr : StepHalt
deriving DecidableEq

/-- One iteration of the `train_one_epoch` loop body, at loop index `d`
(`data_iter_step`), with configuration `a = args.accum_iter`,
`s = args.save_iteration_interval`, `l = args.log_steps`. -/
def train_one_epoch_step (a s l d : Nat) (lossFinite : Bool) : List TrainEff × Option StepHalt :=
  if a = 0 then ([], some StepHalt.zeroDivErr) else
  let e1 := (if d % a == 0 then [TrainEff.adjustLR] else []) ++ [TrainEff.forwardPass]
  if lossFinite = false then (e1, some (StepHalt.exited 1)) else
  let u := (d + 1) % a == 0
  let e2 := e1 ++ [TrainEff.scalerCall u] ++ (if u then [TrainEff.zeroGrad] else [])
  if l = 0 then (e2, some StepHalt.zeroDivErr) else
  let e3 := e2 ++ (if (d + 1) % l == 0 then [TrainEff.logMetrics] else [])
  let n := s / a
  if u then
    if n = 0 then (e3, some StepHalt.zeroDivErr)
    else if ((d + 1) / a) % n == 0 then (e3 ++ [TrainEff.saveCkpt], none)
    else (e3, none)
  else (e3, none)

/-- The epoch loop: run steps on successive batches (each abstracted to the
finiteness of its total loss) until one halts the process. -/
def train_one_epoch_loop (a s l : Nat) : Nat → List Bool → List TrainEff × Option StepHalt
  | _, [] => ([], none)
  | d, b :: rest =>
    match train_one_epoch_step a s l d b with
    | (effs, some h) => (effs, some h)
    | (effs, none) =>
      let (effs2, h2) := train_one_epoch_loop a s l (d + 1) rest
      (effs ++ effs2, h2)

/-! ### Grounding-annotation extraction (`extract_and_color`, lines 143–195)

The pattern of line 157 specialised into a deterministic matcher:
a literal tag, a non-greedy body of non-newline characters, the closing
tag, optional whitespace, and a bracketed run of coordinate characters. -/

/-- Python regex `\d` on ASCII input. -/
def pyIsDigit (c : Char) : Bool :=
  '0' ≤ c && c ≤ '9'

/-- The character class inside the brackets: digits, period, comma,
semicolon and whitespace. -/
def coordClass (c : Char) : Bool :=
  pyIsDigit c || c = '.' || c = ',' || c = ';' || pyIsSpace c

/-- Match the tail of the pattern from just after the closing tag:
skip whitespace greedily, then require a bracketed run of coordinate
characters.  Returns the second capture group (brackets included) and the
remainder of the input. -/
def matchTail (s : List Char) : Option (List Char × List Char) :=
  match s.dropWhile pyIsSpace with
  | '[' :: t =>
    match t.dropWhile coordClass with
    | ']' :: rem => some ('[' :: t.takeWhile coordClass ++ [']'], rem)
    | _ => none
  | _ => none

/-- Try to close the non-greedy body at the current position: the closing
tag must follow, and then `matchTail` must succeed. -/
def closeHere (s : List Char) : Option (List Char × List Char) :=
  if ("</p>".toList).isPrefixOf s then matchTail (s.drop 4) else none

/-- The non-greedy body `(.*?)`: at each position first try to close the
match (minimal body), otherwise consume one non-newline character (`.` does
not match a newline). -/
def matchBodyGo : Nat → List Char → List Char → Option (List Char × List Char × List Char)
  | 0, _, _ => none
  | fuel + 1, acc, s =>
    match closeHere s with
    | some (g2, rem) => some (acc.reverse, g2, rem)
    | none =>
      match s with
      | [] => none
      | c :: t => if c = '\n' then none else matchBodyGo fuel (c :: acc) t

/-- Attempt a full pattern match at the current position, returning both
capture groups and the remainder after the match. -/
def matchAt (s : List Char) : Option ((List Char × List Char) × List Char) :=
  match s with
  | '<' :: 'p' :: '>' :: rest =>
    (matchBodyGo (rest.length + 1) [] rest).map (fun g => ((g.1, g.2.1), g.2.2))
  | _ => none

/-- `re.findall` scanning: try a match at every position, left to right, and
resume after each non-overlapping match. -/
def scanGo : Nat → List Char → List (List Char × List Char)
  | 0, _ => []
  | _ + 1, [] => []
  | fuel + 1, c :: t =>
    match matchAt (c :: t) with
    | some (g, rem) => g :: scanGo fuel rem
    | none => scanGo fuel t

/-- All annotation matches of the input, in order (line 160). -/
def annotationMatches (s : List Char) : List (List Char × List Char) :=
  scanGo s.length s

/-- Try to match `\d+\.\d+` at the current position (line 180). -/
def tryFloatAt (s : List Char) : Option (ℚ × List Char) :=
  match s.takeWhile pyIsDigit with
  | [] => none
  | d1 =>
    match s.dropWhile pyIsDigit with
    | '.' :: s2 =>
      match s2.takeWhile pyIsDigit with
      | [] => none
      | d2 =>
        some ((d1.foldl (fun n c => 10 * n + (c.toNat - '0'.toNat)) 0 : Nat) +
                ((d2.foldl (fun n c => 10 * n + (c.toNat - '0'.toNat)) 0 : Nat) : ℚ) /
                  (10 : ℚ) ^ d2.length,
              s2.dropWhile pyIsDigit)
    | _ => none

/-- `re.findall(r'\d+\.\d+', s)` with each match converted by `float`. -/
def floatScanGo : Nat → List Char → List ℚ
  | 0, _ => []
  | _ + 1, [] => []
  | fuel + 1, c :: t =>
    match tryFloatAt (c :: t) with
    | some (q, rem) => q :: floatScanGo fuel rem
    | none => floatScanGo fuel t

/-- All decimal floats inside a captured bracket string. -/
def floatScan (s : List Char) : List ℚ :=
  floatScanGo s.length s

/-- The fixed cyclic palette (line 169). -/
def paletteColors : List (List Char) :=
  ["red".toList, "blue".toList, "green".toList, "purple".toList, "orange".toList]

/-- The tagged form of a captured span: `<p>text</p>`. -/
def annotationTag (t : List Char) : List Char :=
  ("<p>".toList) ++ t ++ ("</p>".toList)

/-- The colorized inline replacement (line 189). -/
def coloredSpan (color t : List Char) : List Char :=
  ("<span style=\"color:".toList) ++ color ++ ("\">".toList) ++ t ++ ("</span>".toList)

/-- The per-match loop of `extract_and_color` (lines 175–193): record
`(text, floats, color)`, rewrite the first occurrence of the tagged span in
the running Markdown string, and advance the color index modulo 5. -/
def ecLoop : List (List Char × List Char) → Nat → List Char →
    List (List Char × List ℚ × List Char) × List Char
  | [], _, md => ([], md)
  | (t, listStr) :: rest, idx, md =>
    let color := paletteColors.getD idx []
    let md2 := replaceFirst md (annotationTag t) (coloredSpan color t)
    let (res, mdF) := ecLoop rest ((idx + 1) % 5) md2
    ((t, floatScan listStr, color) :: res, mdF)

/-- `extract_and_color` (lines 143–195). -/
def extract_and_color (s : List Char) : List (List Char × List ℚ × List Char) × List Char :=
  ecLoop (annotationMatches s) 0 s

/-- Specification-side description of the rewriting alone: one
first-occurrence replacement per match, in match order, with the palette
color cycling modulo 5 from the given index. -/
def firstOccurrenceRewrites : List (List Char × List Char) → Nat → List Char → List Char
  | [], _, md => md
  | (t, _) :: rest, idx, md =>
    firstOccurrenceRewrites rest ((idx + 1) % 5)
      (replaceFirst md (annotationTag t) (coloredSpan (paletteColors.getD idx []) t))

/-! ### Box rendering (`draw_box_on_image`, lines 197–220) -/

/-- The letterbox origin subtracted from scaled coordinates
(lines 201–206); `//` is Python floor division on nonnegative ints. -/
def letterboxOrigin (w h : Nat) : Nat × Nat :=
  if w < h then ((h - w) / 2, 0) else (0, (w - h) / 2)

/-- One rectangle drawn on the image, with its label and color. -/
structure DrawnBox where
  x1 : ℚ
  y1 : ℚ
  x2 : ℚ
  y2 : ℚ
  label : List Char
  color : List Char
deriving DecidableEq

/-- Groups of 4 consecutive floats (`range(0, len, 4)` plus tuple unpacking,
lines 210–211); a trailing group shorter than 4 raises in Python, modelled
as `none`. -/
def boxChunks : List ℚ → Option (List (ℚ × ℚ × ℚ × ℚ))
  | [] => some []
  | a :: b :: c :: d :: rest => (boxChunks rest).map (fun l => (a, b, c, d) :: l)
  | _ => none

/-- Map one normalized box to pixel coordinates (lines 212–215). -/
def mapBoxToPixels (w h : Nat) (p : ℚ × ℚ × ℚ × ℚ) (name color : List Char) : DrawnBox :=
  { x1 := p.1 * (max w h : ℚ) - ((letterboxOrigin w h).1 : ℚ)
    y1 := p.2.1 * (max w h : ℚ) - ((letterboxOrigin w h).2 : ℚ)
    x2 := p.2.2.1 * (max w h : ℚ) - ((letterboxOrigin w h).1 : ℚ)
    y2 := p.2.2.2 * (max w h : ℚ) - ((letterboxOrigin w h).2 : ℚ)
    label := name
    color := color }

/-- `draw_box_on_image` (lines 197–220) on a `w × h` image: every entry of
the structured list contributes one rectangle per group of 4 floats. -/
def draw_box_on_image (w h : Nat) :
    List (List Char × List ℚ × List Char) → Option (List DrawnBox)
  | [] => some []
  | (name, pts, color) :: rest =>
    match boxChunks pts with
    | none => none
    | some cs =>
      match draw_box_on_image w h rest with
      | none => none
      | some ds => some (cs.map (fun p => mapBoxToPixels w h p name color) ++ ds)

/-! ### Character-level views of the escaping passes (proof helpers) -/

/-- Effect of `replace("<", "&lt;")` on one character. -/
def escCharLt (c : Char) : List Char :=
  if c = '<' then ampLt else [c]

/-- Combined effect of the two display-escape passes on one character. -/
def escChar (c : Char) : List Char :=
  if c = '<' then ampLt else if c = '>' then ampGt else [c]

/-- Effect of `replace(">", "&gt;")` alone on one character. -/
def escCharGt (c : Char) : List Char :=
  if c = '>' then ampGt else [c]

/-- Character-by-character form of the first display-escape pass. -/
def escLt : List Char → List Char
  | [] => []
  | c :: t => escCharLt c ++ escLt t

/-- Character-by-character form of the full display escaping. -/
def escAll : List Char → List Char
  | [] => []
  | c :: t => escChar c ++ escAll t

/-- Character-by-character form of the `>`-only escaping; this is the
intermediate state after undoing `&lt;` on fully escaped text. -/
def escGt : List Char → List Char
  | [] => []
  | c :: t => escCharGt c ++ escGt t

/-! ## General lemmas about the string primitives -/

theorem replaceGo_congr (old nw : List Char) :
    ∀ (f g : Nat) (s : List Char), s.length ≤ f → s.length ≤ g →
      replaceGo old nw f s = replaceGo old nw g s := by
  intro f
  induction f with
  | zero =>
    intro g s hf _
    have hs : s = [] := List.length_eq_zero.mp (Nat.le_zero.mp hf)
    subst hs
    cases g <;> rfl
  | succ f ih =>
    intro g s hf hg
    cases s with
    | nil => cases g <;> rfl
    | cons c t =>
      cases g with
      | zero => simp at hg
      | succ g =>
        simp only [replaceGo]
        by_cases hp : old ≠ [] ∧ old.isPrefixOf (c :: t)
        · rw [if_pos hp, if_pos hp]
          have h1 : (t.drop (old.length - 1)).length ≤ t.length := by
            rw [List.length_drop]
            exact Nat.sub_le _ _
          have hf' : t.length ≤ f := Nat.succ_le_succ_iff.mp (by simpa using hf)
          have hg' : t.length ≤ g := Nat.succ_le_succ_iff.mp (by simpa using hg)
          exact congrArg (nw ++ ·) (ih g _ (le_trans h1 hf') (le_trans h1 hg'))
        · rw [if_neg hp, if_neg hp]
          have hf' : t.length ≤ f := Nat.succ_le_succ_iff.mp (by simpa using hf)
          have hg' : t.length ≤ g := Nat.succ_le_succ_iff.mp (by simpa using hg)
          exact congrArg (c :: ·) (ih g t hf' hg')

theorem pyReplaceAll_nil (old nw : List Char) : pyReplaceAll old nw [] = [] := rfl

theorem pyReplaceAll_cons_pos (old nw : List Char) (c : Char) (t : List Char)
    (hne : old ≠ []) (hp : old.isPrefixOf (c :: t) = true) :
    pyReplaceAll old nw (c :: t) = nw ++ pyReplaceAll old nw (t.drop (old.length - 1)) := by
  unfold pyReplaceAll
  simp only [List.length_cons, replaceGo]
  rw [if_pos ⟨hne, hp⟩]
  refine congrArg (nw ++ ·) ?_
  refine replaceGo_congr old nw t.length _ _ ?_ le_rfl
  rw [List.length_drop]
  exact Nat.sub_le _ _

theorem pyReplaceAll_cons_neg (old nw : List Char) (c : Char) (t : List Char)
    (hp : old.isPrefixOf (c :: t) = false) :
    pyReplaceAll old nw (c :: t) = c :: pyReplaceAll old nw t := by
  unfold pyReplaceAll
  simp only [List.length_cons, replaceGo]
  rw [if_neg (by rintro ⟨-, h2⟩; simp [hp] at h2)]

theorem isPrefixOf_self_append (l x : List Char) : l.isPrefixOf (l ++ x) = true :=
  List.isPrefixOf_iff_prefix.mpr (List.prefix_append l x)

/-! ## C9: `undo` drops exactly the last turn -/

/-- C9: for every non-empty conversation, `undo` returns the conversation
with exactly its last element removed (earlier turns unchanged, in order),
and `undo` of the empty conversation is the empty conversation. -/
theorem undo_removes_last_turn :
    (∀ (cb : Chat) (h : cb ≠ []),
      (undo cb).length = cb.length - 1 ∧
      undo cb = cb.dropLast ∧
      undo cb ++ [cb.getLast h] = cb) ∧
    undo ([] : Chat) = [] := by
  constructor
  · intro cb h
    have hl : 0 < cb.length := List.length_pos.mpr h
    have hu : undo cb = cb.dropLast := by
      unfold undo
      rw [if_pos hl]
    refine ⟨?_, hu, ?_⟩
    · rw [hu, List.length_dropLast]
    · rw [hu, List.dropLast_append_getLast h]
  · rfl

theorem undo_removes_last_turn_witness :
    undo [((some ['a'], none) : Option (List Char) × Option (List Char)),
          (some ['b'], some ['c'])] =
      [((some ['a'], none) : Option (List Char) × Option (List Char)),
       (some ['b'], some ['c'])].dropLast ∧
    undo ([] : Chat) = [] :=
  ⟨(undo_removes_last_turn.1 _ (by decide)).2.1, undo_removes_last_turn.2⟩

/-! ## C8: non-finite loss terminates the step immediately -/

/-- C8: whenever the total loss of a step is non-finite, the step exits the
process with code 1 right after the forward pass: no gradient-scaler call,
no optimizer update (`zeroGrad`), and no checkpoint save happen in that
step, and the epoch loop stops there. -/
theorem nonfinite_loss_exits_with_code_one (a s l d : Nat) (rest : List Bool) (ha : a ≠ 0) :
    train_one_epoch_step a s l d false =
      ((if d % a == 0 then [TrainEff.adjustLR] else []) ++ [TrainEff.forwardPass],
        some (StepHalt.exited 1)) ∧
    (∀ u, TrainEff.scalerCall u ∉ (train_one_epoch_step a s l d false).1) ∧
    TrainEff.zeroGrad ∉ (train_one_epoch_step a s l d false).1 ∧
    TrainEff.saveCkpt ∉ (train_one_epoch_step a s l d false).1 ∧
    train_one_epoch_loop a s l d (false :: rest) =
      ((if d % a == 0 then [TrainEff.adjustLR] else []) ++ [TrainEff.forwardPass],
        some (StepHalt.exited 1)) := by
  have hstep : train_one_epoch_step a s l d false =
      ((if d % a == 0 then [TrainEff.adjustLR] else []) ++ [TrainEff.forwardPass],
        some (StepHalt.exited 1)) := by
    simp [train_one_epoch_step, ha]
  refine ⟨hstep, ?_, ?_, ?_, ?_⟩
  · intro u
    rw [hstep]
    by_cases hd : (d % a == 0) = true <;> simp [hd]
  · rw [hstep]
    by_cases hd : (d % a == 0) = true <;> simp [hd]
  · rw [hstep]
    by_cases hd : (d % a == 0) = true <;> simp [hd]
  · simp [train_one_epoch_loop, hstep]

theorem nonfinite_loss_exits_with_code_one_witness :
    train_one_epoch_loop 2 4 10 3 [false, true] =
      ([TrainEff.forwardPass], some (StepHalt.exited 1)) :=
  ((nonfinite_loss_exits_with_code_one 2 4 10 3 [true] (by decide)).2.2.2.2).trans (by decide)

/-! ## C10: the within-epoch save guard needs `save_iteration_interval ≥ accum_iter` -/

/-- C10: with a finite loss, positive `accum_iter` and a nonzero logging
interval, the save-guard divisor `save_iteration_interval // accum_iter` is
zero exactly when `save_iteration_interval < accum_iter`; in that case every
gradient-update step raises a `ZeroDivisionError` (non-update steps do not
evaluate the modulus, by short-circuiting), while under
`accum_iter ≤ save_iteration_interval` no step raises. -/
theorem save_guard_needs_interval_ge_accum (a s l d : Nat) (ha : 0 < a) (hl : l ≠ 0) :
    (s < a →
      ((d + 1) % a = 0 →
        (train_one_epoch_step a s l d true).2 = some StepHalt.zeroDivErr) ∧
      ((d + 1) % a ≠ 0 → (train_one_epoch_step a s l d true).2 = none)) ∧
    (a ≤ s → (train_one_epoch_step a s l d true).2 = none) := by
  have ha' : a ≠ 0 := Nat.pos_iff_ne_zero.mp ha
  constructor
  · intro hs
    have hn : s / a = 0 := Nat.div_eq_of_lt hs
    constructor
    · intro hu
      simp [train_one_epoch_step, ha', hl, hu, hn]
    · intro hu
      simp [train_one_epoch_step, ha', hl, hu, hn]
  · intro hs
    have hn : s / a ≠ 0 := Nat.pos_iff_ne_zero.mp (Nat.div_pos hs ha)
    by_cases hu : (d + 1) % a = 0
    · by_cases hsave : ((d + 1) / a) % (s / a) == 0 <;>
        simp [train_one_epoch_step, ha', hl, hu, hn, hsave]
    · simp [train_one_epoch_step, ha', hl, hu, hn]

theorem save_guard_needs_interval_ge_accum_witness :
    (train_one_epoch_step 4 3 10 7 true).2 = some StepHalt.zeroDivErr ∧
    (train_one_epoch_step 4 3 10 5 true).2 = none ∧
    (train_one_epoch_step 4 8 10 7 true).2 = none :=
  ⟨((save_guard_needs_interval_ge_accum 4 3 10 7 (by decide) (by decide)).1
      (by decide)).1 (by decide),
   ((save_guard_needs_interval_ge_accum 4 3 10 5 (by decide) (by decide)).1
      (by decide)).2 (by decide),
   (save_guard_needs_interval_ge_accum 4 8 10 7 (by decide) (by decide)).2 (by decide)⟩

/-! ## C6: letterbox offset arithmetic in `draw_box_on_image` -/

/-- C6: on a `w × h` image the normalized box `(0, 0, 1/2, 1/2)` maps to
pixel coordinates by scaling with `max w h` and subtracting the letterbox
origin: left/top `(0, -((w - h) / 2))` in the landscape case `h < w`, and
symmetrically `(-((h - w) / 2), 0)` in the portrait case `w < h` (`/` is
the code's integer floor division). -/
theorem draw_box_letterbox_mapping (w h : Nat) (name color : List Char) :
    (h < w →
      draw_box_on_image w h [(name, [0, 0, 1/2, 1/2], color)] =
        some [{ x1 := 0, y1 := -(((w - h) / 2 : Nat) : ℚ), x2 := (w : ℚ) / 2,
                y2 := (w : ℚ) / 2 - (((w - h) / 2 : Nat) : ℚ),
                label := name, color := color }]) ∧
    (w < h →
      draw_box_on_image w h [(name, [0, 0, 1/2, 1/2], color)] =
        some [{ x1 := -(((h - w) / 2 : Nat) : ℚ), y1 := 0,
                x2 := (h : ℚ) / 2 - (((h - w) / 2 : Nat) : ℚ), y2 := (h : ℚ) / 2,
                label := name, color := color }]) := by
  constructor
  · intro hlt
    have hnlt : ¬ (w < h) := Nat.lt_asymm hlt
    have hq : (w : ℚ) ⊔ (h : ℚ) = (w : ℚ) := sup_eq_left.mpr (by exact_mod_cast le_of_lt hlt)
    simp [draw_box_on_image, boxChunks, mapBoxToPixels, letterboxOrigin, hnlt, hq]
    ring_nf
  · intro hlt
    have hq : (w : ℚ) ⊔ (h : ℚ) = (h : ℚ) := sup_eq_right.mpr (by exact_mod_cast le_of_lt hlt)
    simp [draw_box_on_image, boxChunks, mapBoxToPixels, letterboxOrigin, hlt, hq]
    ring_nf

theorem draw_box_letterbox_mapping_witness :
    draw_box_on_image 10 4 [(['o'], [0, 0, 1/2, 1/2], ['r'])] =
      some [{ x1 := 0, y1 := -(((10 - 4) / 2 : Nat) : ℚ), x2 := (10 : ℚ) / 2,
              y2 := (10 : ℚ) / 2 - (((10 - 4) / 2 : Nat) : ℚ),
              label := ['o'], color := ['r'] }] ∧
    draw_box_on_image 4 10 [(['o'], [0, 0, 1/2, 1/2], ['r'])] =
      some [{ x1 := -(((10 - 4) / 2 : Nat) : ℚ), y1 := 0,
              x2 := (10 : ℚ) / 2 - (((10 - 4) / 2 : Nat) : ℚ), y2 := (10 : ℚ) / 2,
              label := ['o'], color := ['r'] }] :=
  ⟨(draw_box_letterbox_mapping 10 4 ['o'] ['r']).1 (by decide),
   (draw_box_letterbox_mapping 4 10 ['o'] ['r']).2 (by decide)⟩

/-! ## C2: separator detection truncates, right-strips, and stops the stream -/

/-- C2 fails as stated: at a record whose text is `"hi #"` with separator
`"#"`, the emitted chunk is `"hi\n"` (the code right-strips the prefix
before appending the newline), not the bare prefix `"hi "` plus newline. -/
theorem separator_truncation_keeps_spaces_cex :
    model_worker_emit ['#'] [⟨['h', 'i', ' ', '#'], false⟩] =
      [⟨['h', 'i', '\n'], true⟩] ∧
    ¬ model_worker_emit ['#'] [⟨['h', 'i', ' ', '#'], false⟩] =
        [⟨['h', 'i', ' ', '\n'], true⟩] := by
  decide

/-- C2 (amended): when the separator first occurs at position `p` of the
cumulative text, the emitted chunk has `end_of_content = True` and text
equal to the prefix up to `p` with trailing whitespace stripped and a
newline appended, and no further chunk is emitted for that request. -/
theorem separator_truncates_strips_and_stops (sep : List Char) (r : StreamRec)
    (rest : List StreamRec) (p : Nat) (h : findSub r.text sep = some p) :
    model_worker_step sep r =
      (some ⟨pyRstrip (r.text.take p) ++ ['\n'], true⟩, true) ∧
    model_worker_emit sep (r :: rest) = [⟨pyRstrip (r.text.take p) ++ ['\n'], true⟩] := by
  have hdet : conv_sep_detect sep r = ⟨pyRstrip (r.text.take p) ++ ['\n'], true⟩ := by
    unfold conv_sep_detect
    rw [h]
  have hstep : model_worker_step sep r =
      (some ⟨pyRstrip (r.text.take p) ++ ['\n'], true⟩, true) := by
    simp [model_worker_step, hdet]
  exact ⟨hstep, by simp [model_worker_emit, hstep]⟩

theorem separator_truncates_strips_and_stops_witness :
    model_worker_step ("###".toList) ⟨"hello ###wor".toList, false⟩ =
      (some ⟨pyRstrip (("hello ###wor".toList).take 6) ++ ['\n'], true⟩, true) ∧
    model_worker_emit ("###".toList)
        [⟨"hello ###wor".toList, false⟩, ⟨"zzz".toList, false⟩] =
      [⟨pyRstrip (("hello ###wor".toList).take 6) ++ ['\n'], true⟩] :=
  separator_truncates_strips_and_stops ("###".toList) ⟨"hello ###wor".toList, false⟩
    [⟨"zzz".toList, false⟩] 6 (by decide)

/-! ## C3: partially generated separators are withheld -/

/-- C3: for a record still not at `end_of_content` after separator
detection, the worker emits nothing when the cumulative text is shorter
than the separator, and otherwise emits the text with its trailing
separator-length suffix stripped — a partially generated separator is
never sent. -/
theorem withhold_partial_separator (sep : List Char) (r : StreamRec)
    (rest : List StreamRec) (h : (conv_sep_detect sep r).endOfContent = false) :
    (r.text.length < sep.length →
      model_worker_step sep r = (none, false) ∧
      model_worker_emit sep (r :: rest) = model_worker_emit sep rest) ∧
    (¬ r.text.length < sep.length →
      model_worker_step sep r =
        (some ⟨r.text.take (r.text.length - sep.length), false⟩, false) ∧
      model_worker_emit sep (r :: rest) =
        ⟨r.text.take (r.text.length - sep.length), false⟩ :: model_worker_emit sep rest) := by
  have hfind : findSub r.text sep = none := by
    cases hf : findSub r.text sep with
    | none => rfl
    | some p =>
      exfalso
      unfold conv_sep_detect at h
      rw [hf] at h
      simp at h
  have hdet : conv_sep_detect sep r = r := by
    unfold conv_sep_detect
    rw [hfind]
  have hre : r.endOfContent = false := by
    rw [hdet] at h
    exact h
  have hsep : sep ≠ [] := by
    intro hs
    subst hs
    cases ht : r.text with
    | nil => rw [ht] at hfind; simp [findSub] at hfind
    | cons c t => rw [ht] at hfind; simp [findSub, List.isPrefixOf] at hfind
  have hslice : pySliceToNeg r.text sep.length = r.text.take (r.text.length - sep.length) := by
    unfold pySliceToNeg
    rw [if_neg (by simpa using List.length_pos.mpr hsep |>.ne')]
  constructor
  · intro hlen
    have hstep : model_worker_step sep r = (none, false) := by
      simp [model_worker_step, hdet, hre, hlen]
    exact ⟨hstep, by simp [model_worker_emit, hstep]⟩
  · intro hlen
    have hstep : model_worker_step sep r =
        (some ⟨r.text.take (r.text.length - sep.length), false⟩, false) := by
      simp [model_worker_step, hdet, hre, hlen, hslice]
    exact ⟨hstep, by simp [model_worker_emit, hstep]⟩

theorem withhold_partial_separator_witness :
    (model_worker_step ("###".toList) ⟨['a', 'b'], false⟩ = (none, false) ∧
      model_worker_emit ("###".toList) [⟨['a', 'b'], false⟩] =
        model_worker_emit ("###".toList) []) ∧
    (model_worker_step ("###".toList) ⟨"hello".toList, false⟩ =
        (some ⟨("hello".toList).take (("hello".toList).length - ("###".toList).length),
          false⟩, false)) :=
  ⟨(withhold_partial_separator ("###".toList) ⟨['a', 'b'], false⟩ [] (by decide)).1
      (by decide),
   ((withhold_partial_separator ("###".toList) ⟨"hello".toList, false⟩ [] (by decide)).2
      (by decide)).1⟩

/-! ## C1: the per-turn ready-wait / fan-out / relay protocol -/

theorem ready_wait_skips_then_consumes (pre rest : List QueueMsg)
    (hpre : ∀ m ∈ pre, m ≠ QueueMsg.readySignal) :
    ready_wait (pre ++ QueueMsg.readySignal :: rest) = some rest := by
  induction pre with
  | nil => rfl
  | cons m t ih =>
    cases m with
    | readySignal => exact absurd rfl (hpre _ (by simp))
    | streamChunk c =>
      simp only [List.cons_append, ready_wait]
      exact ih (fun m hm => hpre m (by simp [hm]))

theorem ready_wait_blocks_without_ready (l : List QueueMsg)
    (h : ∀ m ∈ l, m ≠ QueueMsg.readySignal) :
    ready_wait l = none := by
  induction l with
  | nil => rfl
  | cons m t ih =>
    cases m with
    | readySignal => exact absurd rfl (h _ (by simp))
    | streamChunk c =>
      simp only [ready_wait]
      exact ih (fun m hm => h m (by simp [hm]))

theorem relayUpToFirstEoc_cons (c : StreamRec) (t : List StreamRec) :
    relayUpToFirstEoc (c :: t) =
      if c.endOfContent then [c] else c :: relayUpToFirstEoc t := by
  by_cases hc : c.endOfContent
  · simp [relayUpToFirstEoc, firstEocIdx, hc]
  · cases hidx : firstEocIdx t with
    | none => simp [relayUpToFirstEoc, firstEocIdx, hc, hidx]
    | some i => simp [relayUpToFirstEoc, firstEocIdx, hc, hidx, List.take_succ_cons]

theorem relay_stream_on_chunks (cs : List StreamRec) :
    relay_stream (cs.map QueueMsg.streamChunk) =
      (relayUpToFirstEoc cs,
        if cs.any (fun c => c.endOfContent) then OrchPhase.completedTurn
        else OrchPhase.blockedMidStream) := by
  induction cs with
  | nil => rfl
  | cons c t ih =>
    by_cases hc : c.endOfContent
    · simp [relay_stream, hc, relayUpToFirstEoc_cons]
    · simp [relay_stream, hc, ih, relayUpToFirstEoc_cons]

theorem relayUpToFirstEoc_no_eoc_before_last (cs : List StreamRec) :
    (relayUpToFirstEoc cs).dropLast.all (fun c => !c.endOfContent) = true := by
  induction cs with
  | nil => rfl
  | cons c t ih =>
    rw [relayUpToFirstEoc_cons]
    by_cases hc : c.endOfContent
    · simp [hc]
    · rw [if_neg hc]
      cases hrt : relayUpToFirstEoc t with
      | nil => simp
      | cons d u =>
        rw [hrt] at ih
        rw [List.dropLast_cons₂]
        simp [hc, ih]

/-- C1: a turn of `stream_model_output` first discards every non-`Ready`
inbound value and consumes exactly one `Ready`, then appends the request
(with the unescaped history) to every worker queue, then relays the
received chunks in order up to and including the first one with
`end_of_content = True`, relaying nothing after it; no chunk before the
last relayed one has `end_of_content = True`, and if no `Ready` ever
arrives the orchestrator blocks without enqueueing anything. -/
theorem orchestrator_turn_protocol (pre : List QueueMsg) (cs : List StreamRec)
    (qs : List (List GenRequest)) (imgPath : Option (List Char)) (chatbot : Chat)
    (params : GenParams) (hpre : ∀ m ∈ pre, m ≠ QueueMsg.readySignal) :
    stream_model_output (pre ++ QueueMsg.readySignal :: cs.map QueueMsg.streamChunk)
        qs imgPath chatbot params =
      { relayed := relayUpToFirstEoc cs
        queues := qs.map (fun q => q ++ [⟨imgPath, prepareHistoryForModel chatbot, params⟩])
        displays := (relayUpToFirstEoc cs).map
          (fun c => setLastBot chatbot (displayEscape c.text))
        phase := if cs.any (fun c => c.endOfContent) then OrchPhase.completedTurn
                 else OrchPhase.blockedMidStream } ∧
    (relayUpToFirstEoc cs).dropLast.all (fun c => !c.endOfContent) = true ∧
    (∀ inbound2, (∀ m ∈ inbound2, m ≠ QueueMsg.readySignal) →
      stream_model_output inbound2 qs imgPath chatbot params =
        ⟨[], qs, [], OrchPhase.blockedInReadyWait⟩) := by
  refine ⟨?_, relayUpToFirstEoc_no_eoc_before_last cs, ?_⟩
  · simp only [stream_model_output, ready_wait_skips_then_consumes pre _ hpre,
      relay_stream_on_chunks cs]
  · intro inbound2 h2
    simp only [stream_model_output, ready_wait_blocks_without_ready inbound2 h2]

theorem orchestrator_turn_protocol_witness :
    stream_model_output
        ([QueueMsg.streamChunk ⟨['x'], false⟩] ++ QueueMsg.readySignal ::
          ([⟨['a'], false⟩, ⟨['a', 'b'], true⟩,
            ⟨['z'], false⟩] : List StreamRec).map QueueMsg.streamChunk)
        [[]] (some ['i']) [(some ['h', 'i'], none)] ⟨64, 0, 1, ['p']⟩ =
      { relayed := relayUpToFirstEoc [⟨['a'], false⟩, ⟨['a', 'b'], true⟩, ⟨['z'], false⟩]
        queues := [[]].map (fun q => q ++
          [⟨some ['i'], prepareHistoryForModel [(some ['h', 'i'], none)], ⟨64, 0, 1, ['p']⟩⟩])
        displays := (relayUpToFirstEoc
            [⟨['a'], false⟩, ⟨['a', 'b'], true⟩, ⟨['z'], false⟩]).map
          (fun c => setLastBot [(some ['h', 'i'], none)] (displayEscape c.text))
        phase := if ([⟨['a'], false⟩, ⟨['a', 'b'], true⟩,
            ⟨['z'], false⟩] : List StreamRec).any (fun c => c.endOfContent) then
            OrchPhase.completedTurn
          else OrchPhase.blockedMidStream } :=
  (orchestrator_turn_protocol [QueueMsg.streamChunk ⟨['x'], false⟩]
      [⟨['a'], false⟩, ⟨['a', 'b'], true⟩, ⟨['z'], false⟩]
      [[]] (some ['i']) [(some ['h', 'i'], none)] ⟨64, 0, 1, ['p']⟩ (by decide)).1

/-! ## Lemmas about `findSub`, `replaceFirst` and the extraction loop -/

theorem findSub_sound : ∀ (u old : List Char) (q : Nat), findSub u old = some q →
    old.isPrefixOf (u.drop q) = true := by
  intro u
  induction u with
  | nil =>
    intro old q h
    simp only [findSub] at h
    by_cases he : old.isEmpty
    · rw [if_pos he] at h
      cases h
      cases old with
      | nil => rfl
      | cons c t => simp at he
    · rw [if_neg he] at h
      cases h
  | cons c t ih =>
    intro old q h
    simp only [findSub] at h
    split at h
    · rename_i hp
      cases h
      simpa using hp
    · cases hf : findSub t old with
      | none => rw [hf] at h; cases h
      | some q2 =>
        rw [hf] at h
        simp only [Option.map_some'] at h
        cases h
        simpa using ih old q2 hf

theorem findSub_first : ∀ (u old : List Char) (q : Nat), findSub u old = some q →
    ∀ j, j < q → old.isPrefixOf (u.drop j) = false := by
  intro u
  induction u with
  | nil =>
    intro old q h j hj
    simp only [findSub] at h
    by_cases he : old.isEmpty
    · rw [if_pos he] at h
      cases h
      exact absurd hj (Nat.not_lt_zero j)
    · rw [if_neg he] at h
      cases h
  | cons c t ih =>
    intro old q h j hj
    simp only [findSub] at h
    split at h
    · cases h
      exact absurd hj (Nat.not_lt_zero j)
    · rename_i hp
      cases hf : findSub t old with
      | none => rw [hf] at h; cases h
      | some q2 =>
        rw [hf] at h
        simp only [Option.map_some'] at h
        cases h
        cases j with
        | zero =>
          simp only [List.drop_zero]
          exact Bool.eq_false_iff.mpr hp
        | succ j2 =>
          simpa using ih old q2 hf j2 (Nat.succ_lt_succ_iff.mp hj)

theorem ecLoop_entries : ∀ (ms : List (List Char × List Char)) (idx : Nat) (md : List Char),
    (ecLoop ms idx md).1.map (fun e => (e.1, e.2.1)) =
      ms.map (fun m => (m.1, floatScan m.2)) := by
  intro ms
  induction ms with
  | nil => intro idx md; rfl
  | cons m rest ih =>
    intro idx md
    cases m with
    | mk t ls => simp [ecLoop, ih]

theorem ecLoop_colors : ∀ (ms : List (List Char × List Char)) (idx : Nat) (md : List Char),
    idx < 5 →
    (ecLoop ms idx md).1.map (fun e => e.2.2) =
      (List.range ms.length).map (fun i => paletteColors.getD ((idx + i) % 5) []) := by
  intro ms
  induction ms with
  | nil => intro idx md _; rfl
  | cons m rest ih =>
    intro idx md hidx
    cases m with
    | mk t ls =>
      have hmod : idx % 5 = idx := Nat.mod_eq_of_lt hidx
      simp only [ecLoop, List.map_cons, List.length_cons, List.range_succ_eq_map,
        ih _ _ (Nat.mod_lt _ (by norm_num)), List.map_map]
      congr 1
      · rw [Nat.add_zero, hmod]
      · refine List.map_congr_left ?_
        intro i _
        simp only [Function.comp_apply]
        congr 1
        omega

theorem matchTail_group_chars (s g2 rem : List Char) (h : matchTail s = some (g2, rem)) :
    ∀ c ∈ g2, c = '[' ∨ c = ']' ∨ coordClass c = true := by
  unfold matchTail at h
  split at h
  · split at h
    · cases h
      intro c hc
      rcases List.mem_cons.mp hc with h1 | h1
      · exact Or.inl h1
      · rcases List.mem_append.mp h1 with h2 | h2
        · exact Or.inr (Or.inr (List.mem_takeWhile_imp h2))
        · exact Or.inr (Or.inl (List.mem_singleton.mp h2))
    · cases h
  · cases h

/-! ## C4: two annotations get the first two palette colors and
first-occurrence replacements -/

/-- C4: on input with exactly two annotation matches, `extract_and_color`
returns two entries colored `red` then `blue`, and the rewritten string is
obtained by replacing, for each match in order, the first occurrence of its
tagged span with the colorized span.  The palette cycles modulo 5 in
general, `findSub` locates the first occurrence (sound and minimal), and
`replaceFirst` rewrites exactly there, keeping everything after it. -/
theorem extract_and_color_two_annotations (s t0 b0 t1 b1 : List Char)
    (h : annotationMatches s = [(t0, b0), (t1, b1)]) :
    (extract_and_color s).1 =
      [(t0, floatScan b0, "red".toList), (t1, floatScan b1, "blue".toList)] ∧
    (extract_and_color s).2 =
      replaceFirst (replaceFirst s (annotationTag t0) (coloredSpan ("red".toList) t0))
        (annotationTag t1) (coloredSpan ("blue".toList) t1) ∧
    (∀ u, (extract_and_color u).1.map (fun e => e.2.2) =
      (List.range (annotationMatches u).length).map
        (fun i => paletteColors.getD (i % 5) [])) ∧
    (∀ u old q, findSub u old = some q →
      old.isPrefixOf (u.drop q) = true ∧
      (∀ j, j < q → old.isPrefixOf (u.drop j) = false) ∧
      ∀ nw, replaceFirst u old nw = u.take q ++ nw ++ u.drop (q + old.length)) := by
  refine ⟨?_, ?_, ?_, ?_⟩
  · unfold extract_and_color
    rw [h]
    simp [ecLoop, paletteColors]
  · unfold extract_and_color
    rw [h]
    simp [ecLoop, paletteColors]
  · intro u
    have hc := ecLoop_colors (annotationMatches u) 0 u (by norm_num)
    simpa [extract_and_color] using hc
  · intro u old q hq
    refine ⟨findSub_sound u old q hq, findSub_first u old q hq, ?_⟩
    intro nw
    unfold replaceFirst
    rw [hq]

theorem extract_and_color_two_annotations_witness :
    (extract_and_color ("x <p>cat</p>[0.12, 0.34] y <p>dog</p> [0.5,0.6] z".toList)).1 =
      [("cat".toList, floatScan ("[0.12, 0.34]".toList), "red".toList),
       ("dog".toList, floatScan ("[0.5,0.6]".toList), "blue".toList)] ∧
    (extract_and_color ("x <p>cat</p>[0.12, 0.34] y <p>dog</p> [0.5,0.6] z".toList)).2 =
      replaceFirst
        (replaceFirst ("x <p>cat</p>[0.12, 0.34] y <p>dog</p> [0.5,0.6] z".toList)
          (annotationTag ("cat".toList)) (coloredSpan ("red".toList) ("cat".toList)))
        (annotationTag ("dog".toList)) (coloredSpan ("blue".toList) ("dog".toList)) := by
  have h := extract_and_color_two_annotations
    ("x <p>cat</p>[0.12, 0.34] y <p>dog</p> [0.5,0.6] z".toList)
    ("cat".toList) ("[0.12, 0.34]".toList) ("dog".toList) ("[0.5,0.6]".toList)
    (by decide)
  exact ⟨h.1, h.2.1⟩

/-! ## C5: malformed bracket contents are not what gets skipped -/

/-- C5 fails as stated: the annotation `<p>cat</p>[1]` has a bracket that
parses to no floats at all, yet `extract_and_color` does not skip it — it
records an entry (with an empty coordinate list) and still performs the
colorized replacement. -/
theorem malformed_floats_not_skipped_cex :
    (extract_and_color ("<p>cat</p>[1]".toList)).1 =
      [("cat".toList, ([] : List ℚ), "red".toList)] ∧
    (extract_and_color ("<p>cat</p>[1]".toList)).2 ≠ "<p>cat</p>[1]".toList := by
  constructor
  · decide
  · decide

theorem ecLoop_markdown : ∀ (ms : List (List Char × List Char)) (idx : Nat) (md : List Char),
    (ecLoop ms idx md).2 = firstOccurrenceRewrites ms idx md := by
  intro ms
  induction ms with
  | nil => intro idx md; rfl
  | cons m rest ih =>
    intro idx md
    cases m with
    | mk t ls => simp [ecLoop, firstOccurrenceRewrites, ih]

/-- C5 (amended): an annotation the pattern matches is never skipped and
never raises: for every input, the entries are exactly the matches in
order, each with the possibly-empty list of decimal numbers parsed from its
bracket, and the rewritten string performs exactly one first-occurrence
colorized replacement per match, in match order with the cycling palette;
spans that are not matches contribute no entry, and every matched bracket
group lies within the coordinate character class (digits, period, comma,
semicolon, whitespace). -/
theorem annotation_match_handling :
    (∀ s, (extract_and_color s).1.map (fun e => (e.1, e.2.1)) =
      (annotationMatches s).map (fun m => (m.1, floatScan m.2))) ∧
    (∀ s, (extract_and_color s).2 =
      firstOccurrenceRewrites (annotationMatches s) 0 s) ∧
    (∀ s g2 rem, matchTail s = some (g2, rem) →
      ∀ c ∈ g2, c = '[' ∨ c = ']' ∨ coordClass c = true) := by
  refine ⟨?_, ?_, matchTail_group_chars⟩
  · intro s
    exact ecLoop_entries (annotationMatches s) 0 s
  · intro s
    exact ecLoop_markdown (annotationMatches s) 0 s

theorem annotation_match_handling_witness :
    (extract_and_color ("<p>cat</p>[1]".toList)).1.map (fun e => (e.1, e.2.1)) =
      (annotationMatches ("<p>cat</p>[1]".toList)).map (fun m => (m.1, floatScan m.2)) ∧
    (extract_and_color ("<p>cat</p>[1]".toList)).2 =
      firstOccurrenceRewrites (annotationMatches ("<p>cat</p>[1]".toList)) 0
        ("<p>cat</p>[1]".toList) ∧
    (∀ c ∈ ('[' :: ("0.5".toList).takeWhile coordClass ++ [']']),
      c = '[' ∨ c = ']' ∨ coordClass c = true) :=
  ⟨annotation_match_handling.1 ("<p>cat</p>[1]".toList),
   annotation_match_handling.2.1 ("<p>cat</p>[1]".toList),
   annotation_match_handling.2.2 ("[0.5]".toList)
     ('[' :: ("0.5".toList).takeWhile coordClass ++ [']']) [] (by decide)⟩

/-! ## Lemmas about the escaping passes -/

theorem pyReplaceAll_single_pos (a : Char) (nw : List Char) (t : List Char) :
    pyReplaceAll [a] nw (a :: t) = nw ++ pyReplaceAll [a] nw t := by
  have h := pyReplaceAll_cons_pos [a] nw a t (by simp)
    (by simp [List.isPrefixOf])
  simpa using h

theorem pyReplaceAll_single_neg (a : Char) (nw : List Char) (c : Char) (t : List Char)
    (h : a ≠ c) : pyReplaceAll [a] nw (c :: t) = c :: pyReplaceAll [a] nw t := by
  refine pyReplaceAll_cons_neg [a] nw c t ?_
  simp [List.isPrefixOf, beq_eq_false_iff_ne, h]

theorem escLt_eq (s : List Char) : pyReplaceAll ['<'] ampLt s = escLt s := by
  induction s with
  | nil => rfl
  | cons c t ih =>
    by_cases hc : c = '<'
    · subst hc
      rw [pyReplaceAll_single_pos]
      simp [escLt, escCharLt, ih]
    · rw [pyReplaceAll_single_neg '<' ampLt c t (Ne.symm hc)]
      simp [escLt, escCharLt, hc, ih]

theorem escAll_eq (s : List Char) : pyReplaceAll ['>'] ampGt (escLt s) = escAll s := by
  induction s with
  | nil => rfl
  | cons c t ih =>
    by_cases h1 : c = '<'
    · subst h1
      have hb : escLt ('<' :: t) = '&' :: 'l' :: 't' :: ';' :: escLt t := by
        simp [escLt, escCharLt, ampLt]
      rw [hb, pyReplaceAll_single_neg '>' ampGt '&' _ (by decide),
        pyReplaceAll_single_neg '>' ampGt 'l' _ (by decide),
        pyReplaceAll_single_neg '>' ampGt 't' _ (by decide),
        pyReplaceAll_single_neg '>' ampGt ';' _ (by decide), ih]
      simp [escAll, escChar, ampLt]
    · by_cases h2 : c = '>'
      · subst h2
        have hb : escLt ('>' :: t) = '>' :: escLt t := by
          simp [escLt, escCharLt]
        rw [hb, pyReplaceAll_single_pos, ih]
        simp [escAll, escChar]
      · have hb : escLt (c :: t) = c :: escLt t := by
          simp [escLt, escCharLt, h1]
        rw [hb, pyReplaceAll_single_neg '>' ampGt c _ (Ne.symm h2), ih]
        simp [escAll, escChar, h1, h2]

theorem displayEscape_eq (s : List Char) : displayEscape s = escAll s := by
  unfold displayEscape
  rw [escLt_eq, escAll_eq]

theorem pyReplaceAll_ampLt_block (nw x : List Char) :
    pyReplaceAll ampLt nw (ampLt ++ x) = nw ++ pyReplaceAll ampLt nw x := by
  have h := pyReplaceAll_cons_pos ampLt nw '&' ('l' :: 't' :: ';' :: x) (by decide)
    (by simp [ampLt, List.isPrefixOf])
  have hd : (('l' :: 't' :: ';' :: x).drop (ampLt.length - 1)) = x := rfl
  rw [hd] at h
  simpa [ampLt] using h

theorem pyReplaceAll_ampGt_block (nw x : List Char) :
    pyReplaceAll ampGt nw (ampGt ++ x) = nw ++ pyReplaceAll ampGt nw x := by
  have h := pyReplaceAll_cons_pos ampGt nw '&' ('g' :: 't' :: ';' :: x) (by decide)
    (by simp [ampGt, List.isPrefixOf])
  have hd : (('g' :: 't' :: ';' :: x).drop (ampGt.length - 1)) = x := rfl
  rw [hd] at h
  simpa [ampGt] using h

theorem semi_escAll (t : List Char) :
    ([';'].isPrefixOf (escAll t)) = ([';'].isPrefixOf t) := by
  cases t with
  | nil => rfl
  | cons c u =>
    by_cases h1 : c = '<'
    · subst h1; rfl
    · by_cases h2 : c = '>'
      · subst h2; rfl
      · simp [escAll, escChar, h1, h2, List.isPrefixOf]

theorem ts_escAll (t : List Char) :
    (['t', ';'].isPrefixOf (escAll t)) = (['t', ';'].isPrefixOf t) := by
  cases t with
  | nil => rfl
  | cons c u =>
    by_cases h1 : c = '<'
    · subst h1; rfl
    · by_cases h2 : c = '>'
      · subst h2; rfl
      · simp [escAll, escChar, h1, h2, List.isPrefixOf, semi_escAll]

theorem lts_escAll (t : List Char) :
    (['l', 't', ';'].isPrefixOf (escAll t)) = (['l', 't', ';'].isPrefixOf t) := by
  cases t with
  | nil => rfl
  | cons c u =>
    by_cases h1 : c = '<'
    · subst h1; rfl
    · by_cases h2 : c = '>'
      · subst h2; rfl
      · simp [escAll, escChar, h1, h2, List.isPrefixOf, ts_escAll]

theorem semi_escGt (t : List Char) :
    ([';'].isPrefixOf (escGt t)) = ([';'].isPrefixOf t) := by
  cases t with
  | nil => rfl
  | cons c u =>
    by_cases h2 : c = '>'
    · subst h2; rfl
    · simp [escGt, escCharGt, h2, List.isPrefixOf]

theorem ts_escGt (t : List Char) :
    (['t', ';'].isPrefixOf (escGt t)) = (['t', ';'].isPrefixOf t) := by
  cases t with
  | nil => rfl
  | cons c u =>
    by_cases h2 : c = '>'
    · subst h2; rfl
    · simp [escGt, escCharGt, h2, List.isPrefixOf, semi_escGt]

theorem gts_escGt (t : List Char) :
    (['g', 't', ';'].isPrefixOf (escGt t)) = (['g', 't', ';'].isPrefixOf t) := by
  cases t with
  | nil => rfl
  | cons c u =>
    by_cases h2 : c = '>'
    · subst h2; rfl
    · simp [escGt, escCharGt, h2, List.isPrefixOf, ts_escGt]

theorem containsSub_cons (c : Char) (t pat : List Char) :
    containsSub (c :: t) pat = (pat.isPrefixOf (c :: t) || containsSub t pat) := by
  by_cases hp : pat.isPrefixOf (c :: t) = true
  · simp [containsSub, findSub, hp]
  · have hp2 : pat.isPrefixOf (c :: t) = false := Bool.eq_false_iff.mpr hp
    simp [containsSub, findSub, hp2]

theorem unescape_lt_on_escaped (s : List Char) (h : containsSub s ampLt = false) :
    pyReplaceAll ampLt ['<'] (escAll s) = escGt s := by
  induction s with
  | nil => rfl
  | cons c t ih =>
    have hsplit := containsSub_cons c t ampLt
    rw [h] at hsplit
    obtain ⟨hp, ht⟩ := Bool.or_eq_false_iff.mp hsplit.symm
    by_cases h1 : c = '<'
    · subst h1
      have hb : escAll ('<' :: t) = ampLt ++ escAll t := by
        simp [escAll, escChar]
      rw [hb, pyReplaceAll_ampLt_block, ih ht]
      simp [escGt, escCharGt]
    · by_cases h2 : c = '>'
      · subst h2
        have hb : escAll ('>' :: t) = '&' :: 'g' :: 't' :: ';' :: escAll t := by
          simp [escAll, escChar, ampGt]
        rw [hb,
          pyReplaceAll_cons_neg ampLt ['<'] '&' ('g' :: 't' :: ';' :: escAll t) rfl,
          pyReplaceAll_cons_neg ampLt ['<'] 'g' ('t' :: ';' :: escAll t) rfl,
          pyReplaceAll_cons_neg ampLt ['<'] 't' (';' :: escAll t) rfl,
          pyReplaceAll_cons_neg ampLt ['<'] ';' (escAll t) rfl, ih ht]
        simp [escGt, escCharGt, ampGt]
      · have hb : escAll (c :: t) = c :: escAll t := by
          simp [escAll, escChar, h1, h2]
        have hneg : ampLt.isPrefixOf (c :: escAll t) = false := by
          by_cases h3 : c = '&'
          · subst h3
            have he : ampLt.isPrefixOf ('&' :: escAll t) =
                (['l', 't', ';'].isPrefixOf (escAll t)) := by
              simp [ampLt, List.isPrefixOf]
            have hpe : ampLt.isPrefixOf ('&' :: t) =
                (['l', 't', ';'].isPrefixOf t) := by
              simp [ampLt, List.isPrefixOf]
            rw [he, lts_escAll]
            rw [hpe] at hp
            exact hp
          · simp [ampLt, List.isPrefixOf, beq_eq_false_iff_ne]
            intro hc
            exact absurd hc.symm h3
        rw [hb, pyReplaceAll_cons_neg ampLt ['<'] c _ hneg, ih ht]
        simp [escGt, escCharGt, h2]

theorem unescape_gt_on_escaped (s : List Char) (h : containsSub s ampGt = false) :
    pyReplaceAll ampGt ['>'] (escGt s) = s := by
  induction s with
  | nil => rfl
  | cons c t ih =>
    have hsplit := containsSub_cons c t ampGt
    rw [h] at hsplit
    obtain ⟨hp, ht⟩ := Bool.or_eq_false_iff.mp hsplit.symm
    by_cases h2 : c = '>'
    · subst h2
      have hb : escGt ('>' :: t) = ampGt ++ escGt t := by
        simp [escGt, escCharGt]
      rw [hb, pyReplaceAll_ampGt_block, ih ht]
      rfl
    · have hb : escGt (c :: t) = c :: escGt t := by
        simp [escGt, escCharGt, h2]
      have hneg : ampGt.isPrefixOf (c :: escGt t) = false := by
        by_cases h3 : c = '&'
        · subst h3
          have he : ampGt.isPrefixOf ('&' :: escGt t) =
              (['g', 't', ';'].isPrefixOf (escGt t)) := by
            simp [ampGt, List.isPrefixOf]
          have hpe : ampGt.isPrefixOf ('&' :: t) =
              (['g', 't', ';'].isPrefixOf t) := by
            simp [ampGt, List.isPrefixOf]
          rw [he, gts_escGt]
          rw [hpe] at hp
          exact hp
        · simp [ampGt, List.isPrefixOf, beq_eq_false_iff_ne]
          intro hc
          exact absurd hc.symm h3
      rw [hb, pyReplaceAll_cons_neg ampGt ['>'] c _ hneg, ih ht]

/-! ## C7: display escaping and transmission unescaping -/

/-- C7 fails as stated: for the model-producible text `"&lt;"` (which
contains no angle bracket, so display escaping leaves it unchanged), the
transmission unescaping turns it into `"<"`, so escape-then-unescape is not
the identity on arbitrary model output. -/
theorem escape_unescape_roundtrip_cex :
    modelUnescape (displayEscape ['&', 'l', 't', ';']) ≠ ['&', 'l', 't', ';'] := by
  decide

/-- C7 (amended): the orchestrator escapes `<` and `>` of displayed text to
`&lt;`/`&gt;` and reverses that escaping on the history sent back to the
workers; for every text that contains neither `&lt;` nor `&gt;` as a
substring, unescaping after escaping restores the original text. -/
theorem escape_unescape_roundtrip (s : List Char)
    (hlt : containsSub s ampLt = false) (hgt : containsSub s ampGt = false) :
    modelUnescape (displayEscape s) = s := by
  unfold modelUnescape
  rw [displayEscape_eq, unescape_lt_on_escaped s hlt, unescape_gt_on_escaped s hgt]

theorem escape_unescape_roundtrip_witness :
    modelUnescape (displayEscape ("a <b> & c".toList)) = "a <b> & c".toList :=
  escape_unescape_roundtrip ("a <b> & c".toList) (by decide) (by decide)
